import Mathlib

/-!
Verification of the sales-deal buying-process core: the deal data model
(`deal_storage.py`), the extract-and-update merge path
(`pages/1_Deal_Workspace.py`), and the Mermaid diagram derivation
(`diagram.py`).  Strings are embedded as Lean `String` (or `List Char`
where character-level reasoning is needed); JSON documents follow the
fixed schema of `extraction_prompt.py` / `EMPTY_BUYING_STEP`, so every
schema field is a total field of the corresponding structure.
-/

namespace SalesBrain

/-- A criterion held by an actor (schema of `extraction_prompt.py`). -/
structure Criterion where
  product : String
  description : String
  type : String
  timeline : String
  dependency : List String
  status : String
deriving DecidableEq, Repr

/-- An actor on a buying step: signatory, evaluator or influencer share the
same shape; `sign_off_status` is populated for signatories only. -/
structure ActorInfo where
  name : String
  title : String
  department : String
  timeline : String
  status : String
  sign_off_status : String
  criteria : List Criterion
deriving DecidableEq, Repr

/-- The `actors` object of a buying step. -/
structure Actors where
  signatories : List ActorInfo
  evaluators : List ActorInfo
  influencers : List ActorInfo
deriving DecidableEq, Repr

/-- Evidence attached to a buying step. -/
structure Evidence where
  artifact : String
  last_updated : String
deriving DecidableEq, Repr

/-- A buying step, with the fields of `EMPTY_BUYING_STEP` in
`deal_storage.py`. -/
structure BuyingStep where
  name : String
  status : String
  timeline : String
  product : List String
  forecast_readiness_dimension : String
  step_dependency : List String
  buyer_owner : String
  seller_owner : String
  evidence : Evidence
  actors : Actors
deriving DecidableEq, Repr

/-- The `buying_process` object: an ordered list of buying steps. -/
structure BuyingProcess where
  buying_steps : List BuyingStep
deriving DecidableEq, Repr

/-- The JSON document returned by `extract_deal_info`.  The handler in
`pages/1_Deal_Workspace.py` (line 139) distinguishes whether the
top-level key `"buying_process"` is present in the parsed result. -/
inductive ExtractResult where
  | withKey (bp : BuyingProcess)
  | bare (bp : BuyingProcess)
deriving DecidableEq, Repr

/-- The buying process the handler installs: `result["buying_process"]`
when the key is present, otherwise `result` itself (lines 139-142). -/
def ExtractResult.process : ExtractResult → BuyingProcess
  | .withKey bp => bp
  | .bare bp => bp

/-- One entry of `update_history`, appended by `add_update_to_history`;
`extracted_data` stores the extraction result verbatim. -/
structure UpdateRecord where
  timestamp : String
  raw_text : String
  extracted_data : ExtractResult
deriving DecidableEq, Repr

/-- A deal document as persisted by `deal_storage.py` (`EMPTY_DEAL`). -/
structure Deal where
  deal_name : String
  created_at : String
  updated_at : String
  buying_process : BuyingProcess
  update_history : List UpdateRecord
deriving DecidableEq, Repr

/-! ## Label sanitizer (`diagram._sanitize`)

`_sanitize` chains ten single-character `str.replace` passes.  A Python
`str.replace(old, new)` with a one-character pattern substitutes `new`
for every occurrence of `old`; on a `List Char` embedding that is
`replChar`. -/

/-- `str.replace(old, new)` for a single-character pattern `old`. -/
def replChar (old : Char) (new : List Char) : List Char → List Char
  | [] => []
  | c :: cs => (if c = old then new else [c]) ++ replChar old new cs

/-- `diagram._sanitize`: empty text becomes `"N/A"`; otherwise the ten
replacement passes are applied in source order (`"` first, `&` last). -/
def sanitize (text : List Char) : List Char :=
  if text = [] then ['N', '/', 'A']
  else
    replChar '&' ['a', 'n', 'd']
      (replChar '#' []
        (replChar '|' ['/']
          (replChar '\x7d' [']']
            (replChar '\x7b' ['[']
              (replChar '>' []
                (replChar '<' []
                  (replChar ')' [']']
                    (replChar '(' ['[']
                      (replChar '"' ['\''] text)))))))))

/-- The characters the spec reserves for the diagram syntax, plus the
ampersand. -/
def reservedChars : List Char :=
  ['"', '(', ')', '<', '>', '\x7b', '\x7d', '|', '#', '&']

/-! ## Storage and merge path (`deal_storage.py`, `pages/1_Deal_Workspace.py`)

`datetime.now()` is threaded in as an explicit timestamp argument. -/

/-- `deal_storage.save_deal`: refreshes `updated_at` and persists the
document; the returned value is the persisted document. -/
def save_deal (ts : String) (deal : Deal) : Deal :=
  { deal with updated_at := ts }

/-- `deal_storage.create_deal`: a fresh empty deal, persisted. -/
def create_deal (ts deal_name : String) : Deal :=
  save_deal ts
    { deal_name := deal_name
      created_at := ts
      updated_at := ts
      buying_process := ⟨[]⟩
      update_history := [] }

/-- `deal_storage.add_update_to_history`: appends one entry carrying the
raw text and the extraction result verbatim. -/
def add_update_to_history (deal : Deal) (ts raw_text : String)
    (extracted_json : ExtractResult) : Deal :=
  { deal with update_history :=
      deal.update_history ++ [⟨ts, raw_text, extracted_json⟩] }

/-- The `Extract & Update` handler (`pages/1_Deal_Workspace.py`, lines
128-157): on a successful extraction it installs the returned buying
process, appends the history entry and saves; a raised exception
(configuration error, JSON parse failure, any other extraction failure)
is caught before any mutation, leaving the persisted deal untouched. -/
def extractAndUpdate (deal : Deal) (raw_text ts : String)
    (result : Except String ExtractResult) : Deal :=
  match result with
  | .error _ => deal
  | .ok r =>
      save_deal ts
        (add_update_to_history { deal with buying_process := r.process }
          ts raw_text r)

/-- Folding a sequence of updates through the handler, oldest first. -/
def runUpdates (deal : Deal) :
    List (String × String × Except String ExtractResult) → Deal
  | [] => deal
  | (raw, ts, res) :: rest => runUpdates (extractAndUpdate deal raw ts res) rest

/-- The deal store: `list_deals()` enumerates the persisted documents,
one per deal name. -/
def dealNames (store : List Deal) : List String :=
  store.map Deal.deal_name

/-- The Create-New-Deal form handler (`app.py`, lines 128-137): an empty
name, or a name already in `list_deals()`, is rejected and creates
nothing; otherwise `create_deal` adds a fresh deal to the store. -/
def newDealForm (store : List Deal) (name ts : String) : List Deal :=
  if name = "" then store
  else if name ∈ dealNames store then store
  else store ++ [create_deal ts name]

/-! ## Diagram derivation (`diagram.generate_mermaid`, `_status_color`) -/

/-- The node id `f"step{i}"` given to the i-th step (line 108). -/
def stepId (i : Nat) : String := "step" ++ toString i

/-- The `step_ids` dictionary of `generate_mermaid` (lines 105-109):
`step_ids[name] = f"step{i}"` assigned in order, a later step with the
same name overwriting an earlier one, so lookup yields the id of the
last step bearing the name.  `stepIdMapAux i l` covers the suffix `l`
whose first element has index `i`. -/
def stepIdMapAux (i : Nat) (l : List BuyingStep) (name : String) :
    Option String :=
  match l with
  | [] => none
  | s :: rest =>
      match stepIdMapAux (i + 1) rest name with
      | some id => some id
      | none => if s.name = name then some (stepId i) else none

/-- `step_ids.get(name)` over the full step list. -/
def stepIdMap (steps : List BuyingStep) (name : String) : Option String :=
  stepIdMapAux 0 steps name

/-- Lines 149-158 of `generate_mermaid`: for the step of index `i`, one
`dep_id --> step_id` edge per dependency name found in `step_ids`;
unresolved names produce nothing.  `step_id` is
`step_ids.get(step_name, f"step{i}")`. -/
def depEdgesAux (steps : List BuyingStep) (i : Nat) :
    List BuyingStep → List (String × String)
  | [] => []
  | s :: rest =>
      s.step_dependency.filterMap (fun d =>
        (stepIdMap steps d).map
          (fun did => (did, (stepIdMap steps s.name).getD (stepId i))))
      ++ depEdgesAux steps (i + 1) rest

/-- The dependency edges of the whole diagram. -/
def depEdges (steps : List BuyingStep) : List (String × String) :=
  depEdgesAux steps 0 steps

/-- Line 161: `has_deps = any(step.get("step_dependency") for ...)` —
true when some step DECLARES a (possibly dangling) dependency. -/
def hasDeps (steps : List BuyingStep) : Bool :=
  steps.any (fun s => !s.step_dependency.isEmpty)

/-- Lines 162-164: the sequential layout fallback `step{i} --> step{i+1}`. -/
def seqEdges (n : Nat) : List (String × String) :=
  (List.range (n - 1)).map (fun i => (stepId i, stepId (i + 1)))

/-- All edges emitted by `generate_mermaid`: the dependency edges,
followed by the sequential fallback when no step declares a dependency
and there are at least two steps. -/
def mermaidEdges (steps : List BuyingStep) : List (String × String) :=
  depEdges steps ++
    (if hasDeps steps = false ∧ 1 < steps.length
     then seqEdges steps.length else [])

/-- Python `str.lower()` on the (ASCII) status strings: lowercase each
character. -/
def strLower (s : String) : String := ⟨s.data.map Char.toLower⟩

/-- `diagram._status_color`: a CSS class from the lowercased status.
(`status or ""` only guards a JSON `null`; the schema makes the field a
string, and the empty string lowers to itself.) -/
def status_color (status : String) : String :=
  if strLower status = "completed" then "completed"
  else if strLower status = "in progress" then "inprogress"
  else if strLower status = "bypassed" then "bypassed"
  else if strLower status = "not started" ∨ strLower status = "scheduled"
    then "notstarted"
  else "default"

/-- The per-node class assignment of `generate_mermaid` (lines 143-146):
exactly one `class step{i} <cls>` line per step, the class computed by
`_status_color` from the step's status. -/
def classAssignmentsAux (i : Nat) : List BuyingStep → List (String × String)
  | [] => []
  | s :: rest => (stepId i, status_color s.status) :: classAssignmentsAux (i + 1) rest

/-- The class assignments of the whole diagram. -/
def classAssignments (steps : List BuyingStep) : List (String × String) :=
  classAssignmentsAux 0 steps

/-! ## Concrete documents used to exercise the operations -/

/-- A minimal actor record. -/
def mkActor (nm : String) : ActorInfo :=
  ⟨nm, "", "", "", "Active", "Pending", []⟩

/-- A minimal buying step with a given name, dependency list and
signatory list. -/
def mkStep (nm : String) (deps : List String) (sigs : List ActorInfo) :
    BuyingStep :=
  ⟨nm, "Not Started", "", [], "", deps, "", "", ⟨"", ""⟩, ⟨sigs, [], []⟩⟩

/-- A deal with one step, as it stands before an update. -/
def demoDeal : Deal :=
  ⟨"Acme", "t0", "t0", ⟨[mkStep "Discovery" [] [mkActor "Sarah"]]⟩, []⟩

/-- An extraction result containing a step with zero signatories. -/
def noSigDoc : ExtractResult :=
  .withKey ⟨[mkStep "Pilot" [] []]⟩

/-- An extraction result whose steps "A" and "B" depend on each other. -/
def cyclicDoc : ExtractResult :=
  .withKey ⟨[mkStep "A" ["B"] [mkActor "P"], mkStep "B" ["A"] [mkActor "Q"]]⟩

/-- Two steps whose only declared dependency is dangling ("Z" names no
step), so the resolved dependency edge set is empty. -/
def danglingSteps : List BuyingStep :=
  [mkStep "A" ["Z"] [mkActor "P"], mkStep "B" [] [mkActor "Q"]]

theorem mem_replChar {old : Char} {new : List Char} {s : List Char} {c : Char}
    (h : c ∈ replChar old new s) : c ∈ new ∨ (c ∈ s ∧ c ≠ old) := by
  induction s with
  | nil => simp [replChar] at h
  | cons x xs ih =>
      simp only [replChar, List.mem_append] at h
      rcases h with h | h
      · by_cases hx : x = old
        · rw [if_pos hx] at h; exact Or.inl h
        · rw [if_neg hx] at h
          simp at h
          subst h
          exact Or.inr ⟨List.mem_cons_self _ _, hx⟩
      · rcases ih h with h' | ⟨hc, hne⟩
        · exact Or.inl h'
        · exact Or.inr ⟨List.mem_cons_of_mem _ hc, hne⟩

theorem replChar_eq_of_not_mem {old : Char} {new : List Char} {s : List Char}
    (h : ∀ c ∈ s, c ≠ old) : replChar old new s = s := by
  induction s with
  | nil => rfl
  | cons x xs ih =>
      have hx : x ≠ old := h x (List.mem_cons_self _ _)
      simp only [replChar, if_neg hx, List.cons_append, List.nil_append]
      exact congrArg (x :: ·) (ih fun c hc => h c (List.mem_cons_of_mem _ hc))

/-- No character of a sanitized label is reserved. -/
theorem sanitize_no_reserved {s : List Char} {c : Char}
    (h : c ∈ sanitize s) : c ∉ reservedChars := by
  unfold sanitize at h
  by_cases hs : s = []
  · rw [if_pos hs] at h
    fin_cases h <;> decide
  · rw [if_neg hs] at h
    rcases mem_replChar h with h1 | ⟨h, hne10⟩
    · fin_cases h1 <;> decide
    rcases mem_replChar h with h1 | ⟨h, hne9⟩
    · simp at h1
    rcases mem_replChar h with h1 | ⟨h, hne8⟩
    · fin_cases h1; decide
    rcases mem_replChar h with h1 | ⟨h, hne7⟩
    · fin_cases h1; decide
    rcases mem_replChar h with h1 | ⟨h, hne6⟩
    · fin_cases h1; decide
    rcases mem_replChar h with h1 | ⟨h, hne5⟩
    · simp at h1
    rcases mem_replChar h with h1 | ⟨h, hne4⟩
    · simp at h1
    rcases mem_replChar h with h1 | ⟨h, hne3⟩
    · fin_cases h1; decide
    rcases mem_replChar h with h1 | ⟨h, hne2⟩
    · fin_cases h1; decide
    rcases mem_replChar h with h1 | ⟨_, hne1⟩
    · fin_cases h1; decide
    intro hc
    fin_cases hc
    · exact hne1 rfl
    · exact hne2 rfl
    · exact hne3 rfl
    · exact hne4 rfl
    · exact hne5 rfl
    · exact hne6 rfl
    · exact hne7 rfl
    · exact hne8 rfl
    · exact hne9 rfl
    · exact hne10 rfl

/-! ## Merge-path claims -/

/-- C1 counterexample: the handler performs no signatory validation.  For
the concrete deal `demoDeal` and the document `noSigDoc`, whose only step
has zero signatories, the update is NOT rejected: the persisted deal
differs from the prior one and a history entry is appended. -/
theorem c1_counterexample :
    (∃ s ∈ noSigDoc.process.buying_steps, s.actors.signatories = []) ∧
    extractAndUpdate demoDeal "call notes" "t1" (.ok noSigDoc) ≠ demoDeal ∧
    (extractAndUpdate demoDeal "call notes" "t1"
        (.ok noSigDoc)).update_history.length =
      demoDeal.update_history.length + 1 := by
  refine ⟨⟨mkStep "Pilot" [] [], by decide, rfl⟩, by decide, rfl⟩

/-- C1 (amended): the merge performs no signatory validation.  For every
existing deal and every extracted document containing a step with zero
signatories, the handler accepts the update: the buying process is
replaced by the document's process and exactly one history entry is
appended. -/
theorem c1_amended (deal : Deal) (raw ts : String) (r : ExtractResult)
    (h : ∃ s ∈ r.process.buying_steps, s.actors.signatories = []) :
    (extractAndUpdate deal raw ts (.ok r)).buying_process = r.process ∧
    (extractAndUpdate deal raw ts (.ok r)).update_history =
      deal.update_history ++ [⟨ts, raw, r⟩] :=
  ⟨rfl, rfl⟩

/-- C1 witness: `c1_amended` applied to `demoDeal` and `noSigDoc`. -/
theorem c1_witness :
    (extractAndUpdate demoDeal "call notes" "t1"
        (.ok noSigDoc)).buying_process = noSigDoc.process ∧
    (extractAndUpdate demoDeal "call notes" "t1"
        (.ok noSigDoc)).update_history =
      demoDeal.update_history ++ [⟨"t1", "call notes", noSigDoc⟩] :=
  c1_amended demoDeal "call notes" "t1" noSigDoc
    ⟨mkStep "Pilot" [] [], by decide, rfl⟩

/-- C2 counterexample: no cycle detection exists.  For `cyclicDoc`, whose
steps "A" and "B" depend on each other (both resolved edges are in the
dependency edge set), the update is NOT rejected: the persisted deal
differs from the prior one and a history entry is appended, and no
CyclicStepDependency violation is ever produced. -/
theorem c2_counterexample :
    ("step1", "step0") ∈ depEdges cyclicDoc.process.buying_steps ∧
    ("step0", "step1") ∈ depEdges cyclicDoc.process.buying_steps ∧
    extractAndUpdate demoDeal "notes" "t1" (.ok cyclicDoc) ≠ demoDeal ∧
    (extractAndUpdate demoDeal "notes" "t1"
        (.ok cyclicDoc)).update_history.length =
      demoDeal.update_history.length + 1 := by
  refine ⟨by decide, by decide, by decide, rfl⟩

/-- C2 (amended): the merge performs no cycle validation.  For every deal
and every extracted document whose steps induce a two-cycle in the
resolved dependency edge set, the handler accepts the update: the process
is replaced and a history entry is appended. -/
theorem c2_amended (deal : Deal) (raw ts : String) (r : ExtractResult)
    (x y : String)
    (hxy : (x, y) ∈ depEdges r.process.buying_steps)
    (hyx : (y, x) ∈ depEdges r.process.buying_steps) :
    (extractAndUpdate deal raw ts (.ok r)).buying_process = r.process ∧
    (extractAndUpdate deal raw ts (.ok r)).update_history =
      deal.update_history ++ [⟨ts, raw, r⟩] :=
  ⟨rfl, rfl⟩

/-- C2 witness: `c2_amended` applied to `demoDeal` and `cyclicDoc`. -/
theorem c2_witness :
    (extractAndUpdate demoDeal "notes" "t1"
        (.ok cyclicDoc)).buying_process = cyclicDoc.process ∧
    (extractAndUpdate demoDeal "notes" "t1"
        (.ok cyclicDoc)).update_history =
      demoDeal.update_history ++ [⟨"t1", "notes", cyclicDoc⟩] :=
  c2_amended demoDeal "notes" "t1" cyclicDoc "step0" "step1"
    (by decide) (by decide)

/-- C3: history is append-only.  Running N successful updates appends
exactly N records, each carrying the raw input text and the extraction
result verbatim; a failed extraction leaves the deal (hence its history)
unchanged. -/
theorem c3_history_append_only :
    (∀ (deal : Deal) (updates : List (String × String × ExtractResult)),
      (runUpdates deal
          (updates.map fun u => (u.1, u.2.1, Except.ok u.2.2))).update_history =
        deal.update_history ++
          (updates.map fun u => (⟨u.2.1, u.1, u.2.2⟩ : UpdateRecord))) ∧
    (∀ (deal : Deal) (updates : List (String × String × ExtractResult)),
      (runUpdates deal
          (updates.map fun u => (u.1, u.2.1, Except.ok u.2.2))).update_history.length =
        deal.update_history.length + updates.length) ∧
    (∀ (deal : Deal) (raw ts err : String),
      extractAndUpdate deal raw ts (.error err) = deal) := by
  have hmain : ∀ (updates : List (String × String × ExtractResult)) (deal : Deal),
      (runUpdates deal
          (updates.map fun u => (u.1, u.2.1, Except.ok u.2.2))).update_history =
        deal.update_history ++
          (updates.map fun u => (⟨u.2.1, u.1, u.2.2⟩ : UpdateRecord)) := by
    intro updates
    induction updates with
    | nil => intro deal; simp [runUpdates]
    | cons u us ih =>
        intro deal
        simp only [List.map_cons, runUpdates, ih,
          extractAndUpdate, add_update_to_history, save_deal,
          List.map_cons, List.append_assoc, List.cons_append, List.nil_append]
  refine ⟨fun deal updates => hmain updates deal, fun deal updates => ?_, fun _ _ _ _ => rfl⟩
  rw [hmain updates deal]
  simp

/-- C4: a successful merge replaces the buying process wholesale with the
extracted document's process (no field-by-field reconciliation) and
refreshes `updated_at` to the save timestamp; in particular, when the
existing deal has no steps, the document's steps become the process
verbatim. -/
theorem c4_wholesale_replace (deal : Deal) (raw ts : String) (r : ExtractResult) :
    (extractAndUpdate deal raw ts (.ok r)).buying_process = r.process ∧
    (extractAndUpdate deal raw ts (.ok r)).updated_at = ts ∧
    (deal.buying_process.buying_steps = [] →
      (extractAndUpdate deal raw ts (.ok r)).buying_process.buying_steps =
        r.process.buying_steps) :=
  ⟨rfl, rfl, fun _ => rfl⟩

/-- C4 witness: `c4_wholesale_replace` on a freshly created (stepless)
deal. -/
theorem c4_witness :
    (create_deal "t0" "Fresh").buying_process.buying_steps = [] ∧
    (extractAndUpdate (create_deal "t0" "Fresh") "raw" "t1"
        (.ok cyclicDoc)).buying_process.buying_steps =
      cyclicDoc.process.buying_steps ∧
    (extractAndUpdate (create_deal "t0" "Fresh") "raw" "t1"
        (.ok cyclicDoc)).updated_at = "t1" :=
  ⟨rfl,
   (c4_wholesale_replace (create_deal "t0" "Fresh") "raw" "t1" cyclicDoc).2.2 rfl,
   (c4_wholesale_replace (create_deal "t0" "Fresh") "raw" "t1" cyclicDoc).2.1⟩

/-! ## Sanitizer claims -/

/-- C7: the sanitized output contains none of the reserved characters
double-quote, parenthesis, angle bracket, brace, pipe, hash — and no
ampersand (every `&` was substituted by `and`). -/
theorem c7_sanitized_labels_safe (s : List Char) (c : Char)
    (hc : c ∈ sanitize s) : c ∉ reservedChars :=
  sanitize_no_reserved hc

/-- C7 witness: `c7_sanitized_labels_safe` on a concrete label. -/
theorem c7_witness :
    'a' ∈ sanitize ['a', '&', '('] ∧ 'a' ∉ reservedChars :=
  ⟨by decide, c7_sanitized_labels_safe ['a', '&', '('] 'a' (by decide)⟩

/-- C10 counterexample: the sanitizer is not idempotent.  The input `"#"`
sanitizes to the empty string (the hash is deleted), but sanitizing the
empty string yields the placeholder `"N/A"`. -/
theorem c10_counterexample :
    sanitize (sanitize ['#']) ≠ sanitize ['#'] := by decide

/-- C10 (amended): the sanitizer is idempotent on every input whose
sanitized output is nonempty; empty input maps to the placeholder
`"N/A"`, which is a fixed point.  (An input all of whose characters are
deleted — such as `"#"` — sanitizes to the empty string, which then
re-sanitizes to `"N/A"`.) -/
theorem c10_amended :
    (∀ s : List Char, sanitize s ≠ [] →
      sanitize (sanitize s) = sanitize s) ∧
    sanitize [] = ['N', '/', 'A'] ∧
    sanitize ['N', '/', 'A'] = ['N', '/', 'A'] := by
  refine ⟨?_, by decide, by decide⟩
  intro s h
  have hres : ∀ old ∈ reservedChars, ∀ c ∈ sanitize s, c ≠ old :=
    fun old ho c hc e => sanitize_no_reserved hc (e ▸ ho)
  conv_lhs => rw [sanitize]
  rw [if_neg h,
    replChar_eq_of_not_mem (hres '"' (by decide)),
    replChar_eq_of_not_mem (hres '(' (by decide)),
    replChar_eq_of_not_mem (hres ')' (by decide)),
    replChar_eq_of_not_mem (hres '<' (by decide)),
    replChar_eq_of_not_mem (hres '>' (by decide)),
    replChar_eq_of_not_mem (hres '\x7b' (by decide)),
    replChar_eq_of_not_mem (hres '\x7d' (by decide)),
    replChar_eq_of_not_mem (hres '|' (by decide)),
    replChar_eq_of_not_mem (hres '#' (by decide)),
    replChar_eq_of_not_mem (hres '&' (by decide))]

/-- C10 witness: `c10_amended` applied to a concrete nonempty-output
input. -/
theorem c10_witness :
    sanitize (sanitize ['a']) = sanitize ['a'] :=
  c10_amended.1 ['a'] (by decide)

/-! ## Graph-builder claims -/

theorem depEdgesAux_eq_nil_of_no_deps (steps : List BuyingStep) :
    ∀ (l : List BuyingStep) (i : Nat), (∀ s ∈ l, s.step_dependency = []) →
      depEdgesAux steps i l = [] := by
  intro l
  induction l with
  | nil => intro i _; rfl
  | cons s rest ih =>
      intro i hl
      have hs : s.step_dependency = [] := hl s (List.mem_cons_self _ _)
      simp only [depEdgesAux, hs, List.filterMap_nil, List.nil_append]
      exact ih (i + 1) fun t ht => hl t (List.mem_cons_of_mem _ ht)

/-- C6 counterexample: the fallback is keyed on DECLARED dependencies,
not on the resolved edge set.  `danglingSteps` has two steps and an empty
resolved edge set (its only declared dependency "Z" names no step), yet
`generate_mermaid` emits no sequential fallback edge at all — the claim
predicts the edge `step0 --> step1`. -/
theorem c6_counterexample :
    depEdges danglingSteps = [] ∧
    2 ≤ danglingSteps.length ∧
    mermaidEdges danglingSteps = [] ∧
    mermaidEdges danglingSteps ≠ [(stepId 0, stepId 1)] := by
  refine ⟨by decide, by decide, by decide, by decide⟩

/-- C6 (amended): for every list of at least two steps none of which
DECLARES any dependency, the emitted edge set is exactly the sequential
fallback `step[i] --> step[i+1]` for all consecutive pairs — a pure
function of the step list, hence identical on every invocation. -/
theorem c6_amended (steps : List BuyingStep)
    (h2 : 2 ≤ steps.length)
    (hnd : ∀ s ∈ steps, s.step_dependency = []) :
    mermaidEdges steps =
      (List.range (steps.length - 1)).map
        (fun i => (stepId i, stepId (i + 1))) := by
  have hdep : depEdges steps = [] :=
    depEdgesAux_eq_nil_of_no_deps steps steps 0 hnd
  have hhd : hasDeps steps = false := by
    simp only [hasDeps, List.any_eq_false, Bool.not_eq_true']
    intro s hs
    simp [List.isEmpty_iff, hnd s hs]
  rw [mermaidEdges, hdep, if_pos ⟨hhd, by omega⟩, List.nil_append, seqEdges]

/-- C6 witness: `c6_amended` on two concrete dependency-free steps. -/
theorem c6_witness :
    mermaidEdges [mkStep "A" [] [mkActor "P"], mkStep "B" [] [mkActor "Q"]] =
      (List.range 1).map (fun i => (stepId i, stepId (i + 1))) :=
  c6_amended [mkStep "A" [] [mkActor "P"], mkStep "B" [] [mkActor "Q"]]
    (by decide) (by decide)

theorem stepIdMapAux_isSome (name : String) :
    ∀ (l : List BuyingStep) (i : Nat),
      (stepIdMapAux i l name).isSome = l.any (fun s => s.name = name) := by
  intro l
  induction l with
  | nil => intro i; rfl
  | cons s rest ih =>
      intro i
      rw [List.any_cons, ← ih (i + 1)]
      simp only [stepIdMapAux]
      cases h : stepIdMapAux (i + 1) rest name with
      | some id => simp [h]
      | none =>
          by_cases hs : s.name = name
          · simp [h, hs]
          · simp [h, hs]

theorem stepIdMap_isSome (steps : List BuyingStep) (name : String) :
    (stepIdMap steps name).isSome = steps.any (fun s => s.name = name) :=
  stepIdMapAux_isSome name steps 0

theorem depEdgesAux_length (steps : List BuyingStep) :
    ∀ (l : List BuyingStep) (i : Nat),
      (depEdgesAux steps i l).length =
        (l.map (fun s => s.step_dependency.countP
          (fun d => steps.any (fun t => t.name = d)))).sum := by
  intro l
  induction l with
  | nil => intro i; rfl
  | cons s rest ih =>
      intro i
      simp only [depEdgesAux, List.length_append, List.map_cons,
        List.sum_cons, ih (i + 1), List.length_filterMap_eq_countP]
      congr 1
      simp only [Option.isSome_map', stepIdMap_isSome]

theorem depEdgesAux_mem (steps : List BuyingStep) :
    ∀ (l : List BuyingStep) (i : Nat), (∀ s ∈ l, s ∈ steps) →
      ∀ e ∈ depEdgesAux steps i l, ∃ s ∈ steps, ∃ d ∈ s.step_dependency,
        stepIdMap steps d = some e.1 ∧ stepIdMap steps s.name = some e.2 := by
  intro l
  induction l with
  | nil => intro i _ e he; simp [depEdgesAux] at he
  | cons s rest ih =>
      intro i hl e he
      rw [depEdgesAux, List.mem_append] at he
      rcases he with he | he
      · rcases List.mem_filterMap.mp he with ⟨d, hd, hfd⟩
        rcases Option.map_eq_some'.mp hfd with ⟨did, hdid, heq⟩
        subst heq
        have hsmem : s ∈ steps := hl s (List.mem_cons_self _ _)
        have hsome : (stepIdMap steps s.name).isSome = true := by
          rw [stepIdMap_isSome]
          exact List.any_eq_true.mpr ⟨s, hsmem, by simp⟩
        rcases Option.isSome_iff_exists.mp hsome with ⟨v, hv⟩
        refine ⟨s, hsmem, d, hd, hdid, ?_⟩
        rw [hv]
        simp [hv]
      · exact ih (i + 1) (fun t ht => hl t (List.mem_cons_of_mem _ ht)) e he

/-- C5: the dependency-edge builder produces exactly one edge per
dependency name that resolves (by exact string equality) to a step name,
no edge for an unresolvable name, and each produced edge runs from the
resolved dependency's node id to the dependent step's node id. -/
theorem c5_dependency_edges (steps : List BuyingStep) :
    (depEdges steps).length =
      (steps.map (fun s => s.step_dependency.countP
        (fun d => steps.any (fun t => t.name = d)))).sum ∧
    ∀ e ∈ depEdges steps, ∃ s ∈ steps, ∃ d ∈ s.step_dependency,
      stepIdMap steps d = some e.1 ∧ stepIdMap steps s.name = some e.2 :=
  ⟨depEdgesAux_length steps steps 0,
   depEdgesAux_mem steps steps 0 (fun _ h => h)⟩

/-- C5 witness: `c5_dependency_edges` on the two-step document. -/
theorem c5_witness :
    (∃ s ∈ cyclicDoc.process.buying_steps, ∃ d ∈ s.step_dependency,
      stepIdMap cyclicDoc.process.buying_steps d = some "step1" ∧
      stepIdMap cyclicDoc.process.buying_steps s.name = some "step0") :=
  (c5_dependency_edges cyclicDoc.process.buying_steps).2
    ("step1", "step0") (by decide)

theorem classAssignmentsAux_length :
    ∀ (l : List BuyingStep) (i : Nat),
      (classAssignmentsAux i l).length = l.length := by
  intro l
  induction l with
  | nil => intro i; rfl
  | cons s rest ih => intro i; simp [classAssignmentsAux, ih (i + 1)]

/-- C8 counterexample: the status-to-class mapping compares lowercased
strings, so `"COMPLETED"` — a value other than the five listed statuses —
is assigned the completed class, not the default class the claim
predicts. -/
theorem c8_counterexample :
    status_color "COMPLETED" = "completed" ∧
    ("COMPLETED" : String) ∉
      (["Completed", "In Progress", "Not Started", "Scheduled", "Bypassed"] :
        List String) ∧
    status_color "COMPLETED" ≠ "default" := by
  refine ⟨by decide, by decide, by decide⟩

/-- C8 (amended): each step's node receives exactly one style class
(always one of the five classes), chosen deterministically from the
LOWERCASED status: "completed" maps to the completed class, "in
progress" to the in-progress class, "not started" and "scheduled" to the
not-started class, "bypassed" to the bypassed class, and any status
whose lowercase form is none of these to the default class. -/
theorem c8_amended (steps : List BuyingStep) (status : String) :
    (classAssignments steps).length = steps.length ∧
    status_color status ∈
      (["completed", "inprogress", "notstarted", "bypassed", "default"] :
        List String) ∧
    (strLower status = "completed" → status_color status = "completed") ∧
    (strLower status = "in progress" → status_color status = "inprogress") ∧
    (strLower status = "bypassed" → status_color status = "bypassed") ∧
    (strLower status = "not started" ∨ strLower status = "scheduled" →
      status_color status = "notstarted") ∧
    (strLower status ∉
        (["completed", "in progress", "bypassed", "not started", "scheduled"] :
          List String) →
      status_color status = "default") := by
  refine ⟨classAssignmentsAux_length steps 0, ?_, ?_, ?_, ?_, ?_, ?_⟩
  · unfold status_color
    split_ifs <;> simp
  · intro h
    simp only [status_color, h]
    decide
  · intro h
    simp only [status_color, h]
    decide
  · intro h
    simp only [status_color, h]
    decide
  · rintro (h | h) <;> (simp only [status_color, h]; decide)
  · intro h
    simp only [List.mem_cons, List.not_mem_nil, or_false, not_or] at h
    obtain ⟨h1, h2, h3, h4, h5⟩ := h
    unfold status_color
    rw [if_neg h1, if_neg h2, if_neg h3,
      if_neg (fun hc => hc.elim h4 h5)]

/-- C8 witness: `c8_amended` at concrete statuses. -/
theorem c8_witness :
    (classAssignments [mkStep "A" [] []]).length = 1 ∧
    status_color "Mystery" = "default" ∧
    status_color "SCHEDULED" = "notstarted" :=
  ⟨(c8_amended [mkStep "A" [] []] "x").1,
   (c8_amended [] "Mystery").2.2.2.2.2.2 (by decide),
   (c8_amended [] "SCHEDULED").2.2.2.2.2.1 (Or.inr (by decide))⟩

/-- C9: deal names are unique across the store.  Creating a deal whose
name is already listed is rejected and creates nothing, and the
create-form handler preserves distinctness of the stored deal names. -/
theorem c9_unique_deal_names :
    (∀ (store : List Deal) (name ts : String), name ∈ dealNames store →
      newDealForm store name ts = store) ∧
    (∀ (store : List Deal) (name ts : String), (dealNames store).Nodup →
      (dealNames (newDealForm store name ts)).Nodup) := by
  constructor
  · intro store name ts hmem
    unfold newDealForm
    by_cases h0 : name = ""
    · rw [if_pos h0]
    · rw [if_neg h0, if_pos hmem]
  · intro store name ts hnd
    unfold newDealForm
    by_cases h0 : name = ""
    · rwa [if_pos h0]
    · rw [if_neg h0]
      by_cases hmem : name ∈ dealNames store
      · rwa [if_pos hmem]
      · rw [if_neg hmem]
        unfold dealNames at *
        rw [List.map_append, List.nodup_append]
        refine ⟨hnd, by simp, ?_⟩
        intro a ha hb
        simp only [List.map_cons, List.map_nil, List.mem_singleton] at hb
        have hname : (create_deal ts name).deal_name = name := rfl
        rw [hname] at hb
        subst hb
        exact hmem ha

/-- C9 witness: `c9_unique_deal_names` with a one-deal store. -/
theorem c9_witness :
    newDealForm [create_deal "t0" "Acme"] "Acme" "t1" =
      [create_deal "t0" "Acme"] ∧
    (dealNames (newDealForm [create_deal "t0" "Acme"] "Widget" "t1")).Nodup :=
  ⟨c9_unique_deal_names.1 [create_deal "t0" "Acme"] "Acme" "t1" (by decide),
   c9_unique_deal_names.2 [create_deal "t0" "Acme"] "Widget" "t1" (by decide)⟩

end SalesBrain
